import Mathlib

/-!
Verification of the garuda-accelerator cocotb harness (`src/garuda/dv/test_mac.py`)
and the CVA6 file-list extractor (`src/integration/extract_cva6_files.py`),
as a shallow embedding in Lean 4.

Python arbitrary-precision integers are modelled by `Int`; nonnegative packed
bit patterns by `Nat`.  Python `b & 0xFF` on a (possibly negative) integer `b`
equals the nonnegative residue `b % 256`, and is embedded as `(b % 256).toNat`.
-/

/-! ## Opcode constants (test_mac.py lines 7-12) -/

def OP_ILLEGAL : Nat := 0

def OP_MAC8 : Nat := 1

def OP_MAC8_ACC : Nat := 2

def OP_MUL8 : Nat := 3

def OP_CLIP8 : Nat := 4

def OP_SIMD_DOT : Nat := 5

/-! ## Golden models -/

/-- The SIMD_DOT golden model of `test_simd_dot` (test_mac.py lines 82-93):
the four-term lane-wise dot product of the drawn byte lists plus the
accumulator, followed by the harness's single conditional subtraction or
addition of `2^32` to re-enter the signed 32-bit range. -/
def simdDotExpected (rs1B rs2B : List Int) (acc : Int) : Int :=
  let dot_product := (List.range 4).foldl
    (fun s b => s + rs1B.getD b 0 * rs2B.getD b 0) 0
  let expected := dot_product + acc
  if expected > 2147483647 then expected - 4294967296
  else if expected < -2147483648 then expected + 4294967296
  else expected

/-- Spec-side SIMD_DOT model, written from the spec's words: the dot product
plus the accumulator, reduced modulo `2^32` and mapped back into the signed
32-bit range `[-2^31, 2^31-1]`. -/
def specSimdDotWrap (rs1B rs2B : List Int) (acc : Int) : Int :=
  let dot := (List.range 4).foldl
    (fun s b => s + rs1B.getD b 0 * rs2B.getD b 0) 0
  let m := (dot + acc) % 4294967296
  if m ≥ 2147483648 then m - 4294967296 else m

/-- The MAC8 golden model of `test_mac8_legacy` (test_mac.py line 126):
the full-precision product-plus-accumulator, with no truncation. -/
def mac8Expected (rs1 rs2 acc : Int) : Int := rs1 * rs2 + acc

/-- Spec-side MAC8 model, written from the spec's words: the sign-extension
of `(rs1*rs2+acc) mod 256` interpreted as a signed 8-bit value. -/
def specMac8Narrow (rs1 rs2 acc : Int) : Int :=
  let m := (rs1 * rs2 + acc) % 256
  if m ≥ 128 then m - 256 else m

/-! ## Checker / Reporter (test_mac.py lines 96-102 and 123-131) -/

/-- The failure a SIMD_DOT iteration can raise.  `invalidFlag` mirrors the
assert at line 99, whose message is the fixed string
"Output should be valid for SIMD_DOT" and carries no vector data.
`mismatch` mirrors the assert at lines 100-102, whose message carries the
iteration index, both operand byte decompositions, the accumulator, the
expected value and the captured value. -/
inductive SimdFailure where
  | invalidFlag : SimdFailure
  | mismatch (iter : Nat) (rs1B rs2B : List Int) (acc expected got : Int) :
      SimdFailure
deriving DecidableEq, Repr

/-- One SIMD_DOT iteration's checks, in source order: first
`assert valid == 1`, then `assert got == expected`.  Returns the first
failure raised, or `none` when both asserts pass. -/
def simdDotCheckIter (i : Nat) (rs1B rs2B : List Int) (acc : Int)
    (valid : Nat) (got : Int) : Option SimdFailure :=
  if valid ≠ 1 then some .invalidFlag
  else if got ≠ simdDotExpected rs1B rs2B acc then
    some (.mismatch i rs1B rs2B acc (simdDotExpected rs1B rs2B acc) got)
  else none

/-- The iteration index carried by a SIMD_DOT failure diagnostic, when the
diagnostic carries one. -/
def failureIter : SimdFailure → Option Nat
  | .invalidFlag => none
  | .mismatch i _ _ _ _ _ => some i

/-- The failure the MAC8 regression test can raise: the assert at line 131
carries only the expected and captured values. -/
inductive Mac8Failure where
  | mismatch (expected got : Int) : Mac8Failure
deriving DecidableEq, Repr

/-- The MAC8 regression test's check (test_mac.py line 131).  The test
samples only `result_o` (line 127); `valid_o` is never read, so the captured
valid flag is ignored by the check. -/
def mac8Check (expected : Int) (valid : Nat) (got : Int) : Option Mac8Failure :=
  if got ≠ expected then some (.mismatch expected got) else none

/-- The expected value the MAC8 regression test computes for its single
directed vector rs1=10, rs2=-5, acc=20 (test_mac.py lines 114-126). -/
def mac8TestExpected : Int := mac8Expected 10 (-5) 20

/-! ## Pipeline-timing sequencer (test_mac.py lines 60-102 and 118-127) -/

/-- Events of the sequencer, in program order: `drive i` is the block of
writes of iteration i's operand, accumulator and opcode values to the input
ports (lines 61-64 resp. 118-121); `edge` is one `await RisingEdge(clk_i)`;
`sample i` is the block of reads of `result_o`/`valid_o` for iteration i
(lines 96-97 resp. 127). -/
inductive Ev where
  | drive (i : Nat)
  | edge
  | sample (i : Nat)
deriving DecidableEq, Repr

/-- The events of one iteration of the `test_simd_dot` loop: drive, two
awaited rising edges (lines 67 and 80), then the sample. -/
def iterEvents (i : Nat) : List Ev := [.drive i, .edge, .edge, .sample i]

/-- The event trace of the whole `test_simd_dot` loop (lines 47-102). -/
def simdDotEvents : List Ev := (List.range 1000).flatMap iterEvents

/-- The event trace of the single `test_mac8_legacy` vector
(lines 118-127): drive, two awaited rising edges (lines 123-124), sample. -/
def mac8Events : List Ev := [.drive 0, .edge, .edge, .sample 0]

/-! ## Reset sequence (test_mac.py lines 14-26) -/

/-- The eight DUT input ports written by `reset_dut`.  The clock `clk_i` is
owned and driven by the free-running `Clock` coroutine (lines 41-42), not by
the reset routine. -/
structure Ports where
  rst_ni : Nat
  rs1_i : Nat
  rs2_i : Nat
  rd_i : Nat
  opcode_i : Nat
  hartid_i : Nat
  id_i : Nat
  rd_addr_i : Nat
deriving DecidableEq, Repr

/-- One step of the `reset_dut` coroutine: a write to an input port, the
`Timer(20, units="ns")` settling delay, or the final awaited rising edge. -/
inductive ResetStep where
  | setRstN (v : Nat)
  | setRs1 (v : Nat)
  | setRs2 (v : Nat)
  | setRd (v : Nat)
  | setOpcode (v : Nat)
  | setHartid (v : Nat)
  | setId (v : Nat)
  | setRdAddr (v : Nat)
  | timerNs (t : Nat)
  | awaitRisingEdge
deriving DecidableEq, Repr

/-- The steps of `reset_dut`, in source order (test_mac.py lines 15-26). -/
def reset_dut : List ResetStep :=
  [.setRstN 0, .setRs1 0, .setRs2 0, .setRd 0, .setOpcode 0, .setHartid 0,
   .setId 0, .setRdAddr 0, .timerNs 20, .setRstN 1, .awaitRisingEdge]

/-- Effect of one reset step on the driven port values. -/
def applyStep (s : Ports) : ResetStep → Ports
  | .setRstN v => { s with rst_ni := v }
  | .setRs1 v => { s with rs1_i := v }
  | .setRs2 v => { s with rs2_i := v }
  | .setRd v => { s with rd_i := v }
  | .setOpcode v => { s with opcode_i := v }
  | .setHartid v => { s with hartid_i := v }
  | .setId v => { s with id_i := v }
  | .setRdAddr v => { s with rd_addr_i := v }
  | .timerNs _ => s
  | .awaitRisingEdge => s

/-- Run a list of reset steps from a starting port state. -/
def runSteps (s : Ports) (l : List ResetStep) : Ports := l.foldl applyStep s

/-! ## Byte packing and extraction (test_mac.py lines 28-36 and 54-58) -/

/-- The function `get_signed_bytes` (test_mac.py lines 28-36): extract 4 signed bytes
from a 32-bit integer.  Python `(val >> (i*8)) & 0xFF` on the nonnegative
packed value is the corresponding `Nat` shift-and-mask. -/
def get_signed_bytes (val : Nat) : List Int :=
  (List.range 4).map (fun i =>
    let byte := (val >>> (i * 8)) &&& 0xFF
    if byte ≥ 128 then (byte : Int) - 256 else (byte : Int))

/-- The packing loop of `test_simd_dot` (test_mac.py lines 54-58):
`rs1_val |= (rs1_bytes[b_idx] & 0xFF) << (b_idx*8)` starting from 0.
Python `b & 0xFF` on a possibly negative `b` is the nonnegative residue
`(b % 256).toNat`. -/
def packBytes (bs : List Int) : Nat :=
  (List.range 4).foldl
    (fun acc i => acc ||| ((bs.getD i 0 % 256).toNat <<< (i * 8))) 0

/-! ## Stimulus generator (test_mac.py lines 47-58) -/

/-- Model of Python's `random.randint`: an abstract sequence of draws
indexed by call number, where draw k with bounds (lo, hi) returns a value
in [lo, hi].  This is randint's documented contract. -/
def RandintSpec (g : Nat → Int → Int → Int) : Prop :=
  ∀ k lo hi, lo ≤ hi → lo ≤ g k lo hi ∧ g k lo hi ≤ hi

/-- The operand vector drawn at iteration i of `test_simd_dot`
(lines 49-51), in source call order: four rs1 bytes from
`randint(-128, 127)`, four rs2 bytes from `randint(-128, 127)`, then the
accumulator from `randint(-2147483648, 2147483647)`. -/
def simdDotVector (g : Nat → Int → Int → Int) (i : Nat) :
    List Int × List Int × Int :=
  ((List.range 4).map (fun j => g (9 * i + j) (-128) 127),
   (List.range 4).map (fun j => g (9 * i + 4 + j) (-128) 127),
   g (9 * i + 8) (-2147483648) 2147483647)

/-- The iteration sequence of the randomized loop, `range(1000)` (line 47). -/
def simdDotIterations : List Nat := List.range 1000

/-! ## The randomized differential loop (test_mac.py lines 47-102) -/

/-- The checks of iteration i given the drawn vector and the DUT response
`resp i = (valid, got)` sampled from `valid_o`/`result_o`. -/
def iterCheck (g : Nat → Int → Int → Int) (resp : Nat → Nat × Int)
    (i : Nat) : Option SimdFailure :=
  simdDotCheckIter i (simdDotVector g i).1 (simdDotVector g i).2.1
    (simdDotVector g i).2.2 (resp i).1 (resp i).2

/-- The loop body over a list of iteration indices: a raised assert aborts
the loop at once, so the first failure is returned and later indices are
never checked. -/
def runSimdList (g : Nat → Int → Int → Int) (resp : Nat → Nat × Int) :
    List Nat → Option SimdFailure
  | [] => none
  | i :: rest =>
    match iterCheck g resp i with
    | some f => some f
    | none => runSimdList g resp rest

/-- The whole `test_simd_dot` loop, `for i in range(1000)` (line 47). -/
def runSimdTest (g : Nat → Int → Int → Int) (resp : Nat → Nat × Int) :
    Option SimdFailure :=
  runSimdList g resp (List.range 1000)

/-! ## The CVA6 file-list extractor (extract_cva6_files.py lines 11-87)

The recursive `process_flist_file` is embedded with an explicit fuel
argument; the termination claim is settled by proving that a computable
fuel bound always suffices.  The filesystem is modelled as an association
list from (normalized absolute) path to raw file content;
`os.path.exists` is lookup success, `open(...).read()` is the looked-up
content.  The platform path functions `os.path.abspath`, `os.path.normpath`,
`os.path.join` and `os.path.isabs` are abstract parameters, bundled in
`PathOps` — none of the proved properties depend on their behaviour. -/

structure PathOps where
  absPath : String → String
  normPath : String → String
  joinPath : String → String → String
  isAbs : String → Bool

/-- The variable replacement of extract_cva6_files.py lines 29-36:
HPDCACHE_DIR first (it contains the CVA6_REPO_DIR pattern), then
CVA6_REPO_DIR, then TARGET_CFG. -/
def substVars (ops : PathOps) (cva6_repo_dir target_cfg content : String) :
    String :=
  let hpdcache_dir := ops.joinPath
    (ops.joinPath (ops.joinPath cva6_repo_dir "core") "cache_subsystem")
    "hpdcache"
  ((content.replace "$\x7bHPDCACHE_DIR\x7d"
      (hpdcache_dir.replace "\\" "/")).replace
    "$\x7bCVA6_REPO_DIR\x7d" (cva6_repo_dir.replace "\\" "/")).replace
    "$\x7bTARGET_CFG\x7d" target_cfg

/-- The normalized target of a `-F` reference line (lines 55-67): the text
after `-F`, stripped, joined under `cva6_repo_dir` unless already absolute,
then normalized. -/
def frefTarget (ops : PathOps) (cva6_repo_dir line : String) : String :=
  let ref0 := (line.drop 2).trim
  let ref1 := if ops.isAbs ref0 then ref0 else ops.joinPath cva6_repo_dir ref0
  ops.normPath ref1

/-- The per-line loop of `process_flist_file` (lines 41-85), with the
recursive call on `-F` references abstracted as `recur`.  The accumulating
`files`, `include_dirs` and the shared mutable `processed_flists` set are
threaded explicitly. -/
def processLines (ops : PathOps) (cva6_repo_dir : String)
    (recur : String → List String →
      Option (List String × List String × List String)) :
    List String → List String → List String → List String →
    Option (List String × List String × List String)
  | [], files, include_dirs, visited => some (files, include_dirs, visited)
  | rawLine :: rest, files, include_dirs, visited =>
    let line := rawLine.trim
    if line = "" || line.startsWith "//" then
      processLines ops cva6_repo_dir recur rest files include_dirs visited
    else if line.startsWith "+incdir" then
      let incdir := (line.replace "+incdir+" "").trim
      processLines ops cva6_repo_dir recur rest files
        (if incdir ≠ "" then include_dirs ++ [incdir] else include_dirs)
        visited
    else if line.startsWith "-F" then
      match recur (frefTarget ops cva6_repo_dir line) visited with
      | none => none
      | some (subFiles, subIncdirs, visited2) =>
        processLines ops cva6_repo_dir recur rest (files ++ subFiles)
          (include_dirs ++ subIncdirs) visited2
    else if line.endsWith ".sv" || line.endsWith ".svh" || line.endsWith ".v"
    then
      let fp0 := line.replace "\\" "/"
      let fp := if fp0.startsWith "../" then fp0 else "../" ++ fp0
      processLines ops cva6_repo_dir recur rest (files ++ [fp]) include_dirs
        visited
    else
      processLines ops cva6_repo_dir recur rest files include_dirs visited

/-- The function `process_flist_file` (lines 11-87) with explicit fuel.  The path is
normalized, checked against and then added to `processed_flists` before any
content is read; a path already processed returns immediately with empty
results; a missing file returns empty results after a warning. -/
def processFlistFile (ops : PathOps) (fs : List (String × String))
    (cva6_repo_dir target_cfg : String) :
    Nat → String → List String →
    Option (List String × List String × List String)
  | 0, _, _ => none
  | fuel + 1, flist_path, processed_flists =>
    let p := ops.normPath (ops.absPath flist_path)
    if p ∈ processed_flists then some ([], [], processed_flists)
    else
      let processed1 := p :: processed_flists
      match fs.lookup p with
      | none => some ([], [], processed1)
      | some content =>
        processLines ops cva6_repo_dir
          (fun q vis => processFlistFile ops fs cva6_repo_dir target_cfg
            fuel q vis)
          ((substVars ops cva6_repo_dir target_cfg content).splitOn "\n")
          [] [] processed1

/-- The number of filesystem entries whose path has not been visited yet:
the termination measure of the recursion. -/
def countUnseen (fs : List (String × String)) (visited : List String) : Nat :=
  ((fs.map Prod.fst).filter (fun k => decide (k ∉ visited))).length

/-- Concrete path operations for witnesses: identity normalization, posix
join, everything treated as absolute. -/
def idPathOps : PathOps :=
  { absPath := id, normPath := id,
    joinPath := fun a b => a ++ "/" ++ b, isAbs := fun _ => true }

/-! ## Theorems -/

/-! ## Helper bounds -/

/-- Bound on the product of two signed bytes. -/
theorem byte_prod_bound {a b : Int} (ha1 : -128 ≤ a) (ha2 : a ≤ 127)
    (hb1 : -128 ≤ b) (hb2 : b ≤ 127) : -16384 ≤ a * b ∧ a * b ≤ 16384 := by
  have h1 : |a| ≤ 128 := abs_le.mpr ⟨by omega, by omega⟩
  have h2 : |b| ≤ 128 := abs_le.mpr ⟨by omega, by omega⟩
  have h3 : |a * b| ≤ 16384 := by
    rw [abs_mul]
    calc |a| * |b| ≤ 128 * 128 :=
          mul_le_mul h1 h2 (abs_nonneg b) (by norm_num)
      _ = 16384 := by norm_num
  have h4 := abs_le.mp h3
  exact ⟨h4.1, h4.2⟩

/-- Claim C1: for every four-lane operand pair with lane bytes in [-128,127]
and every accumulator in the signed 32-bit range, the golden-model expected
value for SIMD_DOT (with its single conditional add/subtract of `2^32`)
equals the full-precision lane-wise dot product plus the accumulator reduced
modulo `2^32` back into the signed 32-bit range. -/
theorem c1_simd_dot_wraparound (rs1B rs2B : List Int) (acc : Int)
    (h1 : ∀ i, -128 ≤ rs1B.getD i 0 ∧ rs1B.getD i 0 ≤ 127)
    (h2 : ∀ i, -128 ≤ rs2B.getD i 0 ∧ rs2B.getD i 0 ≤ 127)
    (hacc1 : -2147483648 ≤ acc) (hacc2 : acc ≤ 2147483647) :
    simdDotExpected rs1B rs2B acc = specSimdDotWrap rs1B rs2B acc := by
  have e0 := byte_prod_bound (h1 0).1 (h1 0).2 (h2 0).1 (h2 0).2
  have e1 := byte_prod_bound (h1 1).1 (h1 1).2 (h2 1).1 (h2 1).2
  have e2 := byte_prod_bound (h1 2).1 (h1 2).2 (h2 2).1 (h2 2).2
  have e3 := byte_prod_bound (h1 3).1 (h1 3).2 (h2 3).1 (h2 3).2
  unfold simdDotExpected specSimdDotWrap
  simp only [show List.range 4 = [0, 1, 2, 3] from rfl, List.foldl_cons,
    List.foldl_nil]
  generalize rs1B.getD 0 0 * rs2B.getD 0 0 = p0 at e0
  generalize rs1B.getD 1 0 * rs2B.getD 1 0 = p1 at e1
  generalize rs1B.getD 2 0 * rs2B.getD 2 0 = p2 at e2
  generalize rs1B.getD 3 0 * rs2B.getD 3 0 = p3 at e3
  split_ifs <;> omega

/-- Witness for C1 at a wrapping input: all lanes 127·127 with the maximal
accumulator, forcing the conditional subtraction of `2^32`. -/
theorem c1_simd_dot_wraparound_witness :
    ((∀ i, -128 ≤ ([127, 127, 127, 127] : List Int).getD i 0 ∧
        ([127, 127, 127, 127] : List Int).getD i 0 ≤ 127) ∧
      -2147483648 ≤ (2147483647 : Int) ∧ (2147483647 : Int) ≤ 2147483647) ∧
    simdDotExpected [127, 127, 127, 127] [127, 127, 127, 127] 2147483647 =
      specSimdDotWrap [127, 127, 127, 127] [127, 127, 127, 127] 2147483647 :=
  ⟨⟨fun i => by
      match i with
      | 0 => exact ⟨by norm_num, by norm_num⟩
      | 1 => exact ⟨by norm_num, by norm_num⟩
      | 2 => exact ⟨by norm_num, by norm_num⟩
      | 3 => exact ⟨by norm_num, by norm_num⟩
      | (n + 4) => simp [List.getD]
    , by norm_num, by norm_num⟩,
   c1_simd_dot_wraparound [127, 127, 127, 127] [127, 127, 127, 127] 2147483647
    (fun i => by
      match i with
      | 0 => exact ⟨by norm_num, by norm_num⟩
      | 1 => exact ⟨by norm_num, by norm_num⟩
      | 2 => exact ⟨by norm_num, by norm_num⟩
      | 3 => exact ⟨by norm_num, by norm_num⟩
      | (n + 4) => simp [List.getD])
    (fun i => by
      match i with
      | 0 => exact ⟨by norm_num, by norm_num⟩
      | 1 => exact ⟨by norm_num, by norm_num⟩
      | 2 => exact ⟨by norm_num, by norm_num⟩
      | 3 => exact ⟨by norm_num, by norm_num⟩
      | (n + 4) => simp [List.getD])
    (by norm_num) (by norm_num)⟩

/-- Claim C2 counterexample: at rs1 = 127, rs2 = 127, acc = 0 (all within
[-128,127]) the code's MAC8 golden model yields the full-precision value
16129, not the sign-extension 1 of `16129 mod 256`; overflow beyond 8 bits
is propagated by the golden model, not discarded. -/
theorem c2_counterexample :
    ((-128 : Int) ≤ 127 ∧ (127 : Int) ≤ 127 ∧ (-128 : Int) ≤ 0 ∧
      (0 : Int) ≤ 127) ∧
    mac8Expected 127 127 0 = 16129 ∧ specMac8Narrow 127 127 0 = 1 ∧
    mac8Expected 127 127 0 ≠ specMac8Narrow 127 127 0 := by
  refine ⟨⟨by norm_num, by norm_num, by norm_num, by norm_num⟩, ?_, ?_, ?_⟩ <;>
    simp [mac8Expected, specMac8Narrow]

/-- Claim C2 amended: the MAC8 golden model computes the full-precision
`rs1*rs2 + acc`; it coincides with the sign-extension of
`(rs1*rs2+acc) mod 256` exactly when the full-precision value already lies
in [-128, 127], as it does for the single directed vector the harness runs. -/
theorem c2_mac8_narrow_amended (rs1 rs2 acc : Int)
    (h1 : -128 ≤ rs1 * rs2 + acc) (h2 : rs1 * rs2 + acc ≤ 127) :
    mac8Expected rs1 rs2 acc = specMac8Narrow rs1 rs2 acc := by
  unfold mac8Expected specMac8Narrow
  generalize hs : rs1 * rs2 + acc = t at h1 h2
  dsimp only
  split_ifs <;> omega

/-- Witness for the amended C2 at the directed vector (10, -5, 20). -/
theorem c2_mac8_narrow_amended_witness :
    ((-128 : Int) ≤ 10 * (-5) + 20 ∧ (10 : Int) * (-5) + 20 ≤ 127) ∧
    mac8Expected 10 (-5) 20 = specMac8Narrow 10 (-5) 20 :=
  ⟨⟨by norm_num, by norm_num⟩,
   c2_mac8_narrow_amended 10 (-5) 20 (by norm_num) (by norm_num)⟩

/-- Claim C3 counterexample: the MAC8 check passes at the concrete captured
result (valid = 0, got = -30) even though the valid flag is 0, so the
harness does not assert `valid_o = 1` for the MAC8 test vector. -/
theorem c3_counterexample :
    mac8Check mac8TestExpected 0 (-30) = none ∧ (0 : Nat) ≠ 1 := by
  constructor
  · simp [mac8Check, mac8TestExpected, mac8Expected]
  · decide

/-- Claim C3 amended: only `test_simd_dot` asserts `valid_o = 1` before the
value-equality assert — a non-1 valid flag fails before any value check, and
a pass with valid = 1 forces value equality — while `test_mac8_legacy`
asserts only value equality and never reads the valid flag (its check result
is independent of the valid value). -/
theorem c3_valid_check_amended :
    (∀ i r1 r2 a v g, v ≠ 1 →
        simdDotCheckIter i r1 r2 a v g = some SimdFailure.invalidFlag) ∧
    (∀ i r1 r2 a g, simdDotCheckIter i r1 r2 a 1 g = none →
        g = simdDotExpected r1 r2 a) ∧
    (∀ e v v2 g, mac8Check e v g = mac8Check e v2 g) := by
  refine ⟨?_, ?_, ?_⟩
  · intro i r1 r2 a v g hv
    simp [simdDotCheckIter, hv]
  · intro i r1 r2 a g h
    by_contra hg
    simp [simdDotCheckIter, hg] at h
  · intro e v v2 g
    rfl

/-- Witness for the amended C3: a concrete non-1 valid flag raises the
generic invalid-flag failure. -/
theorem c3_valid_check_amended_witness :
    (0 : Nat) ≠ 1 ∧
    simdDotCheckIter 0 [1, 2, 3, 4] [5, 6, 7, 8] 9 0 0 =
      some SimdFailure.invalidFlag :=
  ⟨by decide, c3_valid_check_amended.1 0 [1, 2, 3, 4] [5, 6, 7, 8] 9 0 0
    (by decide)⟩

/-- Claim C5: the golden-model expected value for the directed MAC8 vector
rs1=10, rs2=-5, acc=20 is -30, and the harness's check passes exactly when
the captured result equals -30 (for any sampled valid flag). -/
theorem c5_mac8_directed_vector :
    mac8Expected 10 (-5) 20 = -30 ∧
    (∀ v g, mac8Check mac8TestExpected v g = none ↔ g = -30) := by
  constructor
  · norm_num [mac8Expected]
  · intro v g
    constructor
    · intro h
      by_contra hg
      have : g ≠ mac8TestExpected := by
        simp [mac8TestExpected, mac8Expected]
        omega
      simp [mac8Check, this] at h
    · intro h
      subst h
      simp [mac8Check, mac8TestExpected, mac8Expected]

theorem iterEvents_length (i : Nat) : (iterEvents i).length = 4 := rfl

theorem simd_trace_length (n : Nat) :
    ((List.range n).flatMap iterEvents).length = 4 * n := by
  induction n with
  | zero => rfl
  | succ m ih =>
    rw [List.range_succ, List.flatMap_append, List.length_append, ih]
    simp [iterEvents]
    omega

theorem simd_trace_get (n q : Nat) (hq : q < n) :
    ((List.range n).flatMap iterEvents)[4 * q]? = some (Ev.drive q) ∧
    ((List.range n).flatMap iterEvents)[4 * q + 1]? = some Ev.edge ∧
    ((List.range n).flatMap iterEvents)[4 * q + 2]? = some Ev.edge ∧
    ((List.range n).flatMap iterEvents)[4 * q + 3]? = some (Ev.sample q) := by
  induction n with
  | zero => omega
  | succ m ih =>
    rw [List.range_succ, List.flatMap_append]
    by_cases hqm : q < m
    · refine ⟨?_, ?_, ?_, ?_⟩
      · rw [List.getElem?_append_left (by rw [simd_trace_length]; omega)]
        exact (ih hqm).1
      · rw [List.getElem?_append_left (by rw [simd_trace_length]; omega)]
        exact (ih hqm).2.1
      · rw [List.getElem?_append_left (by rw [simd_trace_length]; omega)]
        exact (ih hqm).2.2.1
      · rw [List.getElem?_append_left (by rw [simd_trace_length]; omega)]
        exact (ih hqm).2.2.2
    · have hq' : q = m := by omega
      subst hq'
      refine ⟨?_, ?_, ?_, ?_⟩
      · rw [List.getElem?_append_right (by rw [simd_trace_length]),
          simd_trace_length, Nat.sub_self]
        simp [iterEvents]
      · rw [List.getElem?_append_right (by rw [simd_trace_length]; omega),
          simd_trace_length, Nat.add_sub_cancel_left]
        simp [iterEvents]
      · rw [List.getElem?_append_right (by rw [simd_trace_length]; omega),
          simd_trace_length, Nat.add_sub_cancel_left]
        simp [iterEvents]
      · rw [List.getElem?_append_right (by rw [simd_trace_length]; omega),
          simd_trace_length, Nat.add_sub_cancel_left]
        simp [iterEvents]

/-- Claim C4: in both tests, each vector's drive is followed by exactly two
awaited rising edges and then its sample (positions 4q, 4q+1, 4q+2, 4q+3 of
the trace), every drive sits at a position that is a multiple of 4, and any
two distinct drives are separated by more than the full two-edge latency of
the earlier vector — i.e. no vector is driven while a previous vector is
still in flight. -/
theorem c4_two_edge_latency :
    simdDotEvents.length = 4000 ∧
    (∀ q, q < 1000 →
      simdDotEvents[4 * q]? = some (Ev.drive q) ∧
      simdDotEvents[4 * q + 1]? = some Ev.edge ∧
      simdDotEvents[4 * q + 2]? = some Ev.edge ∧
      simdDotEvents[4 * q + 3]? = some (Ev.sample q)) ∧
    (∀ j k, simdDotEvents[j]? = some (Ev.drive k) → j = 4 * k) ∧
    (∀ j k j2 k2, simdDotEvents[j]? = some (Ev.drive k) →
      simdDotEvents[j2]? = some (Ev.drive k2) → j < j2 → j + 3 < j2) ∧
    (mac8Events[0]? = some (Ev.drive 0) ∧ mac8Events[1]? = some Ev.edge ∧
      mac8Events[2]? = some Ev.edge ∧ mac8Events[3]? = some (Ev.sample 0) ∧
      mac8Events.length = 4) := by
  have hlen : simdDotEvents.length = 4000 := by
    unfold simdDotEvents
    rw [simd_trace_length]
  have hget : ∀ q, q < 1000 →
      simdDotEvents[4 * q]? = some (Ev.drive q) ∧
      simdDotEvents[4 * q + 1]? = some Ev.edge ∧
      simdDotEvents[4 * q + 2]? = some Ev.edge ∧
      simdDotEvents[4 * q + 3]? = some (Ev.sample q) :=
    fun q hq => simd_trace_get 1000 q hq
  have hdrive : ∀ j k, simdDotEvents[j]? = some (Ev.drive k) → j = 4 * k := by
    intro j k h
    by_cases hj : j < 4000
    · have hq : j / 4 < 1000 := by omega
      have h4 := hget (j / 4) hq
      have hr : j % 4 = 0 ∨ j % 4 = 1 ∨ j % 4 = 2 ∨ j % 4 = 3 := by omega
      rcases hr with h0 | h1 | h2 | h3
      · rw [(by omega : j = 4 * (j / 4))] at h
        rw [h4.1] at h
        simp only [Option.some.injEq, Ev.drive.injEq] at h
        omega
      · rw [(by omega : j = 4 * (j / 4) + 1)] at h
        rw [h4.2.1] at h
        simp at h
      · rw [(by omega : j = 4 * (j / 4) + 2)] at h
        rw [h4.2.2.1] at h
        simp at h
      · rw [(by omega : j = 4 * (j / 4) + 3)] at h
        rw [h4.2.2.2] at h
        simp at h
    · rw [List.getElem?_eq_none (by omega)] at h
      simp at h
  refine ⟨hlen, hget, hdrive, ?_, rfl, rfl, rfl, rfl, rfl⟩
  intro j k j2 k2 h1 h2 hlt
  have e1 := hdrive j k h1
  have e2 := hdrive j2 k2 h2
  omega

/-- Witness for C4: the first vector is driven at position 0, sampled at
position 3 after two edges; the drive found at position 4 is iteration 1's,
and it comes strictly after iteration 0's sample. -/
theorem c4_two_edge_latency_witness :
    ((0 : Nat) < 1000 ∧ simdDotEvents[0]? = some (Ev.drive 0) ∧
      simdDotEvents[1]? = some Ev.edge ∧ simdDotEvents[2]? = some Ev.edge ∧
      simdDotEvents[3]? = some (Ev.sample 0)) ∧
    ((4 : Nat) = 4 * 1) ∧ ((0 : Nat) + 3 < 4) :=
  ⟨⟨by norm_num, c4_two_edge_latency.2.1 0 (by norm_num)⟩,
    c4_two_edge_latency.2.2.1 4 1 (c4_two_edge_latency.2.1 1 (by norm_num)).1,
    c4_two_edge_latency.2.2.2.1 0 0 4 1
      (c4_two_edge_latency.2.1 0 (by norm_num)).1
      (c4_two_edge_latency.2.1 1 (by norm_num)).1 (by norm_num)⟩

/-- Claim C8: from any prior port state, `reset_dut` drives every modelled
DUT input port (including `hartid_i`, `id_i`, `rd_addr_i`) to zero; the
active-low reset `rst_ni` is 0 throughout the steps up to and including the
20 ns settling timer, is then deasserted to 1, and the sequence ends with
exactly one awaited rising clock edge. -/
theorem c8_reset_sequence (s0 : Ports) :
    runSteps s0 reset_dut =
      { rst_ni := 1, rs1_i := 0, rs2_i := 0, rd_i := 0, opcode_i := 0,
        hartid_i := 0, id_i := 0, rd_addr_i := 0 } ∧
    (runSteps s0 (reset_dut.take 9)).rst_ni = 0 ∧
    reset_dut[8]? = some (ResetStep.timerNs 20) ∧
    reset_dut[9]? = some (ResetStep.setRstN 1) ∧
    reset_dut[10]? = some ResetStep.awaitRisingEdge ∧
    reset_dut.length = 11 ∧
    reset_dut.count ResetStep.awaitRisingEdge = 1 := by
  refine ⟨?_, ?_, rfl, rfl, rfl, rfl, rfl⟩
  · simp [runSteps, reset_dut, applyStep, List.foldl]
  · simp [runSteps, reset_dut, applyStep, List.foldl]

/-- The packed word as a weighted byte sum: the `|=` accumulations combine
disjoint byte fields, so the bitwise ors are additions. -/
theorem packBytes_eq (b0 b1 b2 b3 : Int) :
    packBytes [b0, b1, b2, b3] =
      (b0 % 256).toNat + 2 ^ 8 * (b1 % 256).toNat +
        2 ^ 16 * (b2 % 256).toNat + 2 ^ 24 * (b3 % 256).toNat := by
  have hc0 : (b0 % 256).toNat < 2 ^ 8 := by norm_num; omega
  have hc1 : (b1 % 256).toNat < 2 ^ 8 := by norm_num; omega
  have hc2 : (b2 % 256).toNat < 2 ^ 8 := by norm_num; omega
  show (((0 ||| ((b0 % 256).toNat <<< 0)) ||| ((b1 % 256).toNat <<< 8)) |||
      ((b2 % 256).toNat <<< 16)) ||| ((b3 % 256).toNat <<< 24) = _
  rw [Nat.zero_or, Nat.shiftLeft_zero]
  have e1 : (b0 % 256).toNat ||| ((b1 % 256).toNat <<< 8) =
      2 ^ 8 * (b1 % 256).toNat + (b0 % 256).toNat := by
    rw [Nat.shiftLeft_eq, Nat.mul_comm ((b1 % 256).toNat) (2 ^ 8), Nat.or_comm]
    exact (Nat.mul_add_lt_is_or hc0 _).symm
  have e2 : (2 ^ 8 * (b1 % 256).toNat + (b0 % 256).toNat) |||
        ((b2 % 256).toNat <<< 16) =
      2 ^ 16 * (b2 % 256).toNat + (2 ^ 8 * (b1 % 256).toNat + (b0 % 256).toNat) := by
    rw [Nat.shiftLeft_eq, Nat.mul_comm ((b2 % 256).toNat) (2 ^ 16), Nat.or_comm]
    exact (Nat.mul_add_lt_is_or (by norm_num at hc0 hc1 ⊢; omega) _).symm
  have e3 : (2 ^ 16 * (b2 % 256).toNat +
        (2 ^ 8 * (b1 % 256).toNat + (b0 % 256).toNat)) |||
        ((b3 % 256).toNat <<< 24) =
      2 ^ 24 * (b3 % 256).toNat + (2 ^ 16 * (b2 % 256).toNat +
        (2 ^ 8 * (b1 % 256).toNat + (b0 % 256).toNat)) := by
    rw [Nat.shiftLeft_eq, Nat.mul_comm ((b3 % 256).toNat) (2 ^ 24), Nat.or_comm]
    exact (Nat.mul_add_lt_is_or (by norm_num at hc0 hc1 hc2 ⊢; omega) _).symm
  rw [e1, e2, e3]
  ring

/-- The low byte of the packed word is lane byte 0. -/
theorem packBytes_lsb (b0 b1 b2 b3 : Int) :
    packBytes [b0, b1, b2, b3] % 256 = (b0 % 256).toNat := by
  rw [packBytes_eq]
  norm_num
  omega

/-- Any decoded signed byte lies in [-128, 127]. -/
theorem decode_byte_range (m : Nat) :
    -128 ≤ (if m &&& 0xFF ≥ 128 then ((m &&& 0xFF : Nat) : Int) - 256
        else ((m &&& 0xFF : Nat) : Int)) ∧
      (if m &&& 0xFF ≥ 128 then ((m &&& 0xFF : Nat) : Int) - 256
        else ((m &&& 0xFF : Nat) : Int)) ≤ 127 := by
  have h := @Nat.and_le_right m 0xFF
  split_ifs <;> constructor <;> omega

set_option maxHeartbeats 1000000 in
/-- Claim C9: packing four signed bytes with `(b & 0xFF) << (8*i)` and
decoding with `get_signed_bytes` returns the original list, and every value
`get_signed_bytes` returns for a nonnegative 32-bit input lies in
[-128, 127]. -/
theorem c9_pack_roundtrip :
    (∀ b0 b1 b2 b3 : Int,
      (-128 ≤ b0 ∧ b0 ≤ 127) → (-128 ≤ b1 ∧ b1 ≤ 127) →
      (-128 ≤ b2 ∧ b2 ≤ 127) → (-128 ≤ b3 ∧ b3 ≤ 127) →
      get_signed_bytes (packBytes [b0, b1, b2, b3]) = [b0, b1, b2, b3]) ∧
    (∀ val : Nat, val < 2 ^ 32 →
      ∀ x ∈ get_signed_bytes val, -128 ≤ x ∧ x ≤ 127) := by
  constructor
  · intro b0 b1 b2 b3 h0 h1 h2 h3
    rw [packBytes_eq]
    unfold get_signed_bytes
    simp only [show List.range 4 = [0, 1, 2, 3] from rfl, List.map_cons,
      List.map_nil, List.cons.injEq, and_true]
    rw [Nat.shiftRight_eq_div_pow, Nat.shiftRight_eq_div_pow,
      Nat.shiftRight_eq_div_pow, Nat.shiftRight_eq_div_pow,
      (by norm_num : (0xFF : Nat) = 2 ^ 8 - 1),
      Nat.and_pow_two_sub_one_eq_mod, Nat.and_pow_two_sub_one_eq_mod,
      Nat.and_pow_two_sub_one_eq_mod, Nat.and_pow_two_sub_one_eq_mod]
    norm_num
    refine ⟨?_, ?_, ?_, ?_⟩ <;> split_ifs <;> omega
  · intro val hval x hx
    unfold get_signed_bytes at hx
    simp only [show List.range 4 = [0, 1, 2, 3] from rfl, List.map_cons,
      List.map_nil, List.mem_cons, List.not_mem_nil, or_false] at hx
    rcases hx with h | h | h | h <;> subst h <;>
      exact decode_byte_range _

/-- Witness for C9 at the concrete byte list [1, 2, -3, -4] and at the
packed input 0. -/
theorem c9_pack_roundtrip_witness :
    (((-128 : Int) ≤ 1 ∧ (1 : Int) ≤ 127) ∧ ((-128 : Int) ≤ 2 ∧ (2 : Int) ≤ 127) ∧
      ((-128 : Int) ≤ -3 ∧ (-3 : Int) ≤ 127) ∧
      ((-128 : Int) ≤ -4 ∧ (-4 : Int) ≤ 127)) ∧
    get_signed_bytes (packBytes [1, 2, -3, -4]) = [1, 2, -3, -4] ∧
    ((0 : Nat) < 2 ^ 32 ∧ (0 : Int) ∈ get_signed_bytes 0 ∧
      (-128 ≤ (0 : Int) ∧ (0 : Int) ≤ 127)) :=
  ⟨⟨⟨by norm_num, by norm_num⟩, ⟨by norm_num, by norm_num⟩,
    ⟨by norm_num, by norm_num⟩, ⟨by norm_num, by norm_num⟩⟩,
   c9_pack_roundtrip.1 1 2 (-3) (-4) ⟨by norm_num, by norm_num⟩
     ⟨by norm_num, by norm_num⟩ ⟨by norm_num, by norm_num⟩
     ⟨by norm_num, by norm_num⟩,
   by norm_num, by decide,
   c9_pack_roundtrip.2 0 (by norm_num) 0 (by decide)⟩

/-- A map over `range(4)` written out. -/
theorem map_range4 (f : Nat → Int) :
    (List.range 4).map f = [f 0, f 1, f 2, f 3] := rfl

/-- Claim C6: the randomized loop runs exactly 1000 iterations; in every
iteration all eight operand lane bytes are drawn from [-128, 127] and the
accumulator from the full signed 32-bit range; and the packed operand words
place lane byte 0 in the least-significant byte position. -/
theorem c6_randomized_stimulus :
    simdDotIterations.length = 1000 ∧
    ∀ g, RandintSpec g → ∀ i,
      ((simdDotVector g i).1.length = 4 ∧ (simdDotVector g i).2.1.length = 4) ∧
      (∀ b ∈ (simdDotVector g i).1, -128 ≤ b ∧ b ≤ 127) ∧
      (∀ b ∈ (simdDotVector g i).2.1, -128 ≤ b ∧ b ≤ 127) ∧
      (-2147483648 ≤ (simdDotVector g i).2.2 ∧
        (simdDotVector g i).2.2 ≤ 2147483647) ∧
      packBytes (simdDotVector g i).1 % 256 =
        ((simdDotVector g i).1.getD 0 0 % 256).toNat ∧
      packBytes (simdDotVector g i).2.1 % 256 =
        ((simdDotVector g i).2.1.getD 0 0 % 256).toNat := by
  refine ⟨by simp [simdDotIterations], ?_⟩
  intro g hg i
  unfold simdDotVector
  dsimp only
  rw [map_range4, map_range4]
  refine ⟨⟨rfl, rfl⟩, ?_, ?_, ?_, ?_, ?_⟩
  · intro b hb
    simp only [List.mem_cons, List.not_mem_nil, or_false] at hb
    rcases hb with h | h | h | h <;> subst h <;>
      exact hg _ (-128) 127 (by norm_num)
  · intro b hb
    simp only [List.mem_cons, List.not_mem_nil, or_false] at hb
    rcases hb with h | h | h | h <;> subst h <;>
      exact hg _ (-128) 127 (by norm_num)
  · exact hg _ (-2147483648) 2147483647 (by norm_num)
  · exact packBytes_lsb _ _ _ _
  · exact packBytes_lsb _ _ _ _

/-- Witness for C6 with the always-lower-bound draw sequence. -/
theorem c6_randomized_stimulus_witness :
    RandintSpec (fun _ lo _ => lo) ∧
    (-2147483648 ≤ (simdDotVector (fun _ lo _ => lo) 0).2.2 ∧
      (simdDotVector (fun _ lo _ => lo) 0).2.2 ≤ 2147483647) ∧
    packBytes (simdDotVector (fun _ lo _ => lo) 0).1 % 256 =
      ((simdDotVector (fun _ lo _ => lo) 0).1.getD 0 0 % 256).toNat :=
  ⟨fun k lo hi h => ⟨le_refl lo, h⟩,
   (c6_randomized_stimulus.2 (fun _ lo _ => lo)
     (fun k lo hi h => ⟨le_refl lo, h⟩) 0).2.2.2.1,
   (c6_randomized_stimulus.2 (fun _ lo _ => lo)
     (fun k lo hi h => ⟨le_refl lo, h⟩) 0).2.2.2.2.1⟩

/-- Claim C7 counterexample: a disagreement of the valid flag at iteration 0
(valid = 0) raises the generic invalid-flag failure, whose diagnostic
carries no iteration index (and no operand bytes, accumulator, expected or
captured values) — refuting the claim that every disagreement's diagnostic
contains those fields. -/
theorem c7_counterexample :
    runSimdTest (fun _ lo _ => lo) (fun _ => (0, 0)) =
      some SimdFailure.invalidFlag ∧
    failureIter SimdFailure.invalidFlag = none ∧
    (∀ i r1 r2 a e got,
      SimdFailure.invalidFlag ≠ SimdFailure.mismatch i r1 r2 a e got) := by
  refine ⟨?_, rfl, ?_⟩
  · have hr : List.range 1000 = 0 :: List.range' 1 999 := by
      rw [List.range_eq_range', show (1000 : Nat) = 999 + 1 from rfl,
        List.range'_succ]
    unfold runSimdTest
    rw [hr]
    rfl
  · intro i r1 r2 a e got h
    exact SimdFailure.noConfusion h

/-- Claim C7 amended: a failure raised in a prefix of the iteration list is
the whole run's outcome, so later iterations are never executed; a run
passes exactly when every iteration's checks pass; a raised failure aborts
at its own iteration; a value mismatch under a valid flag raises the full
diagnostic carrying the iteration index, both operand byte decompositions,
the accumulator, the expected value and the captured value; a valid-flag
disagreement raises immediately but with the generic diagnostic that
carries none of those fields. -/
theorem c7_first_failure_aborts :
    (∀ g resp l1 l2 f, runSimdList g resp l1 = some f →
        runSimdList g resp (l1 ++ l2) = some f) ∧
    (∀ g resp l, runSimdList g resp l = none ↔
        ∀ i ∈ l, iterCheck g resp i = none) ∧
    (∀ g resp i rest f, iterCheck g resp i = some f →
        runSimdList g resp (i :: rest) = some f) ∧
    (∀ i r1 r2 a got, got ≠ simdDotExpected r1 r2 a →
        simdDotCheckIter i r1 r2 a 1 got =
          some (SimdFailure.mismatch i r1 r2 a (simdDotExpected r1 r2 a) got)) ∧
    (∀ i r1 r2 a v got, v ≠ 1 →
        simdDotCheckIter i r1 r2 a v got = some SimdFailure.invalidFlag ∧
        failureIter SimdFailure.invalidFlag = none) := by
  refine ⟨?_, ?_, ?_, ?_, ?_⟩
  · intro g resp l1 l2 f h
    induction l1 with
    | nil => simp [runSimdList] at h
    | cons i rest ih =>
      rw [List.cons_append]
      simp only [runSimdList] at h ⊢
      cases hc : iterCheck g resp i with
      | some f2 => rw [hc] at h; exact h
      | none => rw [hc] at h; exact ih h
  · intro g resp l
    induction l with
    | nil => simp [runSimdList]
    | cons i rest ih =>
      simp only [runSimdList, List.mem_cons]
      cases hc : iterCheck g resp i with
      | some f2 =>
        refine ⟨fun h => Option.noConfusion h, fun hall => ?_⟩
        have hi := hall i (Or.inl rfl)
        rw [hc] at hi
        exact Option.noConfusion hi
      | none =>
        rw [ih]
        constructor
        · intro hall j hj
          rcases hj with h | h
          · subst h; exact hc
          · exact hall j h
        · intro hall j hj
          exact hall j (Or.inr hj)
  · intro g resp i rest f h
    simp only [runSimdList]
    rw [h]
  · intro i r1 r2 a got hgot
    simp [simdDotCheckIter, hgot]
  · intro i r1 r2 a v got hv
    exact ⟨by simp [simdDotCheckIter, hv], rfl⟩

/-- Witness for the amended C7: a valid-flag failure at iteration 5 aborts
the run before iterations 6 and 7 are reached, and the two diagnostic
shapes at concrete inputs. -/
theorem c7_first_failure_aborts_witness :
    (runSimdList (fun _ lo _ => lo) (fun _ => (0, 0)) [5] =
        some SimdFailure.invalidFlag ∧
      runSimdList (fun _ lo _ => lo) (fun _ => (0, 0)) ([5] ++ [6, 7]) =
        some SimdFailure.invalidFlag) ∧
    ((1 : Int) ≠ simdDotExpected [] [] 0 ∧
      simdDotCheckIter 0 [] [] 0 1 1 =
        some (SimdFailure.mismatch 0 [] [] 0 (simdDotExpected [] [] 0) 1)) ∧
    ((0 : Nat) ≠ 1 ∧
      simdDotCheckIter 0 [] [] 0 0 0 = some SimdFailure.invalidFlag ∧
      failureIter SimdFailure.invalidFlag = none) :=
  ⟨⟨rfl,
    c7_first_failure_aborts.1 (fun _ lo _ => lo) (fun _ => (0, 0)) [5] [6, 7]
      SimdFailure.invalidFlag rfl⟩,
   ⟨by decide,
    c7_first_failure_aborts.2.2.2.1 0 [] [] 0 1 (by decide)⟩,
   ⟨by decide,
    c7_first_failure_aborts.2.2.2.2 0 [] [] 0 0 0 (by decide)⟩⟩

/-- Filtering an unvisited-path predicate past a visited head element. -/
theorem filter_cons_mem {a : String} {v : List String} (t : List String)
    (hmem : a ∈ v) :
    (a :: t).filter (fun k => decide (k ∉ v)) =
      t.filter (fun k => decide (k ∉ v)) := by
  simp [List.filter_cons, hmem]

/-- Filtering an unvisited-path predicate past an unvisited head element. -/
theorem filter_cons_not_mem {a : String} {v : List String} (t : List String)
    (hmem : a ∉ v) :
    (a :: t).filter (fun k => decide (k ∉ v)) =
      a :: t.filter (fun k => decide (k ∉ v)) := by
  simp [List.filter_cons, hmem]

/-- Growing the visited set cannot increase the number of unseen keys. -/
theorem filter_unseen_anti (l v1 v2 : List String) (h : v1 ⊆ v2) :
    (l.filter (fun k => decide (k ∉ v2))).length ≤
      (l.filter (fun k => decide (k ∉ v1))).length := by
  induction l with
  | nil => simp
  | cons a t ih =>
    by_cases h2 : a ∈ v2
    · by_cases h1 : a ∈ v1
      · rw [filter_cons_mem t h2, filter_cons_mem t h1]
        exact ih
      · rw [filter_cons_mem t h2, filter_cons_not_mem t h1, List.length_cons]
        omega
    · have h1 : a ∉ v1 := fun hm => h2 (h hm)
      rw [filter_cons_not_mem t h2, filter_cons_not_mem t h1,
        List.length_cons, List.length_cons]
      omega

/-- Visiting a key that occurs in the list and was unseen strictly shrinks
the unseen count. -/
theorem filter_unseen_strict (l v : List String) (a : String)
    (hal : a ∈ l) (hav : a ∉ v) :
    (l.filter (fun k => decide (k ∉ (a :: v)))).length <
      (l.filter (fun k => decide (k ∉ v))).length := by
  induction l with
  | nil => simp at hal
  | cons b t ih =>
    by_cases hba : b = a
    · subst hba
      have hle := filter_unseen_anti t v (b :: v) (List.subset_cons_self b v)
      rw [filter_cons_mem t (List.mem_cons_self b v),
        filter_cons_not_mem t hav, List.length_cons]
      omega
    · have hat : a ∈ t := by
        rcases List.mem_cons.mp hal with h | h
        · exact absurd h.symm hba
        · exact h
      have hlt := ih hat
      by_cases hbv : b ∈ v
      · rw [filter_cons_mem t (List.mem_cons_of_mem a hbv),
          filter_cons_mem t hbv]
        exact hlt
      · have hbav : b ∉ (a :: v) := by
          simp only [List.mem_cons, not_or]
          exact ⟨fun hh => hba hh, hbv⟩
        rw [filter_cons_not_mem t hbav, filter_cons_not_mem t hbv,
          List.length_cons, List.length_cons]
        omega

/-- A successful lookup means the path is one of the filesystem keys. -/
theorem lookup_mem_keys (fs : List (String × String)) (p : String)
    (c : String) (h : fs.lookup p = some c) : p ∈ fs.map Prod.fst := by
  induction fs with
  | nil => simp [List.lookup] at h
  | cons kv t ih =>
    match kv with
    | (k, b) =>
      simp only [List.lookup] at h
      cases hbeq : p == k with
      | true =>
        simp only [List.map_cons, List.mem_cons]
        exact Or.inl (eq_of_beq hbeq)
      | false =>
        rw [hbeq] at h
        simp only [List.map_cons, List.mem_cons]
        exact Or.inr (ih h)

/-- The line loop only grows the visited set, given that the recursive call
does. -/
theorem processLines_visited_mono (ops : PathOps) (cva6 : String)
    (recur : String → List String →
      Option (List String × List String × List String))
    (hrec : ∀ q vis r, recur q vis = some r → vis ⊆ r.2.2) :
    ∀ lines files incdirs visited r,
      processLines ops cva6 recur lines files incdirs visited = some r →
      visited ⊆ r.2.2 := by
  intro lines
  induction lines with
  | nil =>
    intro files incdirs visited r h
    simp only [processLines] at h
    cases h
    exact List.Subset.refl _
  | cons rawLine rest ih =>
    intro files incdirs visited r h
    simp only [processLines] at h
    split at h
    · exact ih _ _ _ _ h
    · split at h
      · exact ih _ _ _ _ h
      · split at h
        · cases hres : recur (frefTarget ops cva6 rawLine.trim) visited with
          | none =>
            rw [hres] at h
            exact Option.noConfusion h
          | some tr =>
            obtain ⟨subF, subI, vis2⟩ := tr
            rw [hres] at h
            have h1 : visited ⊆ vis2 := hrec _ _ _ hres
            have h2 : vis2 ⊆ r.2.2 := ih _ _ _ _ h
            exact h1.trans h2
        · split at h
          · exact ih _ _ _ _ h
          · exact ih _ _ _ _ h

/-- The function `process_flist_file` only grows the visited set. -/
theorem processFlistFile_visited_mono (ops : PathOps)
    (fs : List (String × String)) (cva6 cfg : String) :
    ∀ fuel p vis r,
      processFlistFile ops fs cva6 cfg fuel p vis = some r → vis ⊆ r.2.2 := by
  intro fuel
  induction fuel with
  | zero =>
    intro p vis r h
    simp [processFlistFile] at h
  | succ n ih =>
    intro p vis r h
    simp only [processFlistFile] at h
    split at h
    · cases h
      exact List.Subset.refl _
    · split at h
      · cases h
        exact List.subset_cons_self _ _
      · have hsub := processLines_visited_mono ops cva6 _
          (fun q vis2 r2 hr2 => ih q vis2 r2 hr2) _ _ _ _ _ h
        exact (List.subset_cons_self _ _).trans hsub

/-- The line loop succeeds whenever the recursive call succeeds below the
unseen-count bound and only grows the visited set. -/
theorem processLines_success (ops : PathOps) (fs : List (String × String))
    (cva6 : String)
    (recur : String → List String →
      Option (List String × List String × List String))
    (n : Nat)
    (hmono : ∀ q vis r, recur q vis = some r → vis ⊆ r.2.2)
    (hrec : ∀ q vis, countUnseen fs vis < n → (recur q vis).isSome = true) :
    ∀ lines files incdirs visited, countUnseen fs visited < n →
      (processLines ops cva6 recur lines files incdirs visited).isSome = true := by
  intro lines
  induction lines with
  | nil =>
    intro files incdirs visited hv
    simp [processLines]
  | cons rawLine rest ih =>
    intro files incdirs visited hv
    simp only [processLines]
    split
    · exact ih _ _ _ hv
    · split
      · exact ih _ _ _ hv
      · split
        · cases hres : recur (frefTarget ops cva6 rawLine.trim) visited with
          | none =>
            have hs := hrec (frefTarget ops cva6 rawLine.trim) visited hv
            rw [hres] at hs
            simp at hs
          | some tr =>
            obtain ⟨subF, subI, vis2⟩ := tr
            have hsub : visited ⊆ vis2 := hmono _ _ _ hres
            have hle : countUnseen fs vis2 ≤ countUnseen fs visited :=
              filter_unseen_anti (fs.map Prod.fst) visited vis2 hsub
            exact ih _ _ _ (by omega)
        · split
          · exact ih _ _ _ hv
          · exact ih _ _ _ hv

/-- The function `process_flist_file` succeeds whenever the fuel exceeds the number of
unseen filesystem paths — in particular on cyclic or self-referential
`-F` structures. -/
theorem processFlistFile_success (ops : PathOps) (fs : List (String × String))
    (cva6 cfg : String) :
    ∀ fuel p vis, countUnseen fs vis < fuel →
      (processFlistFile ops fs cva6 cfg fuel p vis).isSome = true := by
  intro fuel
  induction fuel with
  | zero =>
    intro p vis h
    omega
  | succ n ih =>
    intro p vis h
    simp only [processFlistFile]
    split
    · rfl
    · rename_i hmem
      cases hl : fs.lookup (ops.normPath (ops.absPath p)) with
      | none => rfl
      | some content =>
        apply processLines_success ops fs cva6 _ n
          (fun q vis2 r2 hr2 =>
            processFlistFile_visited_mono ops fs cva6 cfg n q vis2 r2 hr2)
          (fun q vis2 h2 => ih q vis2 h2)
        have hkey : (ops.normPath (ops.absPath p)) ∈ fs.map Prod.fst :=
          lookup_mem_keys fs _ content hl
        have hstrict : countUnseen fs (ops.normPath (ops.absPath p) :: vis) <
            countUnseen fs vis :=
          filter_unseen_strict (fs.map Prod.fst) vis _ hkey hmem
        omega

/-- A successful run records the normalized absolute path of its argument
in the returned visited set. -/
theorem processFlistFile_mem (ops : PathOps) (fs : List (String × String))
    (cva6 cfg : String) :
    ∀ fuel p vis r, processFlistFile ops fs cva6 cfg fuel p vis = some r →
      ops.normPath (ops.absPath p) ∈ r.2.2 := by
  intro fuel
  cases fuel with
  | zero =>
    intro p vis r h
    simp [processFlistFile] at h
  | succ n =>
    intro p vis r h
    simp only [processFlistFile] at h
    split at h
    · rename_i hmem
      cases h
      exact hmem
    · split at h
      · cases h
        exact List.mem_cons_self _ _
      · have hsub := processLines_visited_mono ops cva6 _
          (fun q vis2 r2 hr2 =>
            processFlistFile_visited_mono ops fs cva6 cfg n q vis2 r2 hr2)
          _ _ _ _ _ h
        exact hsub (List.mem_cons_self _ _)

/-- Claim C10: `process_flist_file` terminates on every input, including
cyclic or self-referential `-F` structures — fuel one more than the number
of unseen filesystem paths always suffices; a path whose normalized
absolute form is already in `processed_flists` returns immediately with
empty results and an unchanged set; and after any successful run,
re-processing the same path against the returned set again returns
immediately with empty results, so no flist file is processed more than
once. -/
theorem c10_flist_termination (ops : PathOps) (fs : List (String × String))
    (cva6 cfg p : String) (vis : List String) :
    (processFlistFile ops fs cva6 cfg (countUnseen fs vis + 1) p vis).isSome
      = true ∧
    (∀ fuel, ops.normPath (ops.absPath p) ∈ vis →
      processFlistFile ops fs cva6 cfg (fuel + 1) p vis = some ([], [], vis)) ∧
    (∀ fuel r, processFlistFile ops fs cva6 cfg fuel p vis = some r →
      ∀ fuel2, processFlistFile ops fs cva6 cfg (fuel2 + 1) p r.2.2 =
        some ([], [], r.2.2)) := by
  refine ⟨?_, ?_, ?_⟩
  · exact processFlistFile_success ops fs cva6 cfg _ p vis (by omega)
  · intro fuel hmem
    simp only [processFlistFile]
    rw [if_pos hmem]
  · intro fuel r h fuel2
    have hmem := processFlistFile_mem ops fs cva6 cfg fuel p vis r h
    simp only [processFlistFile]
    rw [if_pos hmem]

/-- Witness for C10: termination on a self-referential flist (file "a"
whose content is the line `-Fa`), the immediate return on an already
visited path, and the at-most-once property after a successful run. -/
theorem c10_flist_termination_witness :
    (processFlistFile idPathOps [("a", "-Fa")] "c" "t"
        (countUnseen [("a", "-Fa")] [] + 1) "a" []).isSome = true ∧
    (idPathOps.normPath (idPathOps.absPath "x") ∈ ["x"] ∧
      processFlistFile idPathOps [] "c" "t" (3 + 1) "x" ["x"] =
        some ([], [], ["x"])) ∧
    (processFlistFile idPathOps [] "c" "t" (0 + 1) "y" ["y"] =
        some ([], [], ["y"]) ∧
      processFlistFile idPathOps [] "c" "t" (2 + 1) "y" ["y"] =
        some ([], [], ["y"])) :=
  ⟨(c10_flist_termination idPathOps [("a", "-Fa")] "c" "t" "a" []).1,
   ⟨by simp [idPathOps],
    (c10_flist_termination idPathOps [] "c" "t" "x" ["x"]).2.1 3
      (by simp [idPathOps])⟩,
   ⟨by simp [processFlistFile, idPathOps],
    (c10_flist_termination idPathOps [] "c" "t" "y" ["y"]).2.2 (0 + 1)
      ([], [], ["y"]) (by simp [processFlistFile, idPathOps]) 2⟩⟩
